import Mathlib

/-!
Shallow embedding of the multitap delay-line library (src/src/lib.rs).

The Rust source stores the samples in a single fixed array
data: UnsafeCell of an N-array shared by one write cursor and any number of
read cursors.  Here the array is a List, the capacity N is its length, and
each cursor is its head_position, with the shared buffer threaded explicitly
through the operations.  usize subtraction that can underflow is modelled
twice: checked (Option, none = the debug-build panic) and wrapping
(arithmetic modulo 2 ^ 64, the release-build behaviour).
-/

/-- Mirrors the Rust trait Num (the name Num is taken by Mathlib): a
copyable element type with a default value (f32 yields 0.0, i32 yields 0).
Int stands in for i32. -/
class NumTrait (α : Type) where
  default_value : α

instance : NumTrait Int := ⟨0⟩

/-- The Multitap buffer.  In the source it is a single field
data: UnsafeCell of an N-array; the capacity N is data.length.  Note the
source has no writer-issued flag and no other field. -/
structure Multitap (α : Type) where
  data : List α

/-- A write-head or read-head state is its head_position; the buffer the
source's cursors point back to is passed explicitly to each operation. -/
structure WriteHeadState where
  head_position : Nat

/-- Multitap::new builds data as an N-array filled with default_value.
It is total for every N, including N = 0. -/
def Multitap.new (α : Type) [NumTrait α] (N : Nat) : Multitap α :=
  ⟨List.replicate N (NumTrait.default_value : α)⟩

/-- Multitap::from_buffer wraps a caller-supplied N-array. -/
def Multitap.from_buffer {α : Type} (data : List α) : Multitap α :=
  ⟨data⟩

/-- Multitap::from_slice does data.try_into().expect("Wrong size"): the
expect call panics when the slice length differs from N.  The panic is
modelled as none. -/
def Multitap.from_slice {α : Type} (N : Nat) (data : List α) : Option (Multitap α) :=
  if data.length = N then some ⟨data⟩ else none

/-- Multitap::as_writehead unconditionally returns a WriteHead with
head_position 0; the source checks nothing and cannot fail. -/
def Multitap.as_writehead {α : Type} (_m : Multitap α) : WriteHeadState :=
  ⟨0⟩

/-- Multitap::as_readhead sets head_position to (N - head_position) % N.
The subtraction is on usize, so it underflows when the requested delay
exceeds N; in a debug build that is a panic, modelled here as none. -/
def Multitap.as_readhead_pos (N delay : Nat) : Option Nat :=
  if delay ≤ N then some ((N - delay) % N) else none

def usizeSize : Nat := 2 ^ 64

/-- Release-build semantics of the same expression: wrapping usize
subtraction (N - delay) mod 2 ^ 64, then % N. -/
def Multitap.as_readhead_pos_wrap (N delay : Nat) : Nat :=
  ((N + (usizeSize - delay % usizeSize)) % usizeSize) % N

/-- ReadHead::seek sets head_position to position % N. -/
def ReadHead.seek (N position : Nat) : Nat :=
  position % N

/-- ReadHead::next (the Iterator impl) reads buffer[head_position], then
advances head_position by one modulo N.  The only buffer access is the read,
so the buffer comes back unchanged in the result triple. -/
def ReadHead.next {α : Type} (buf : List α) (pos : Nat) : Option α × List α × Nat :=
  (buf[pos]?, buf, (pos + 1) % buf.length)

/-- ReadHead's Index impl reads the slot (head_position + i) % N, where the
sum head_position + i is a usize addition: it can overflow when i is large.
Debug-build semantics: the overflow panics, modelled as none; otherwise the
read result is returned. -/
def ReadHead.index_get_checked {α : Type} (buf : List α) (pos i : Nat) :
    Option (Option α) :=
  if pos + i < usizeSize then some (buf[(pos + i) % buf.length]?) else none

/-- Release-build semantics of the same Index impl: the usize addition
head_position + i wraps modulo 2 ^ 64 before the reduction % N. -/
def ReadHead.index_get_wrap {α : Type} (buf : List α) (pos i : Nat) : Option α :=
  buf[((pos + i) % usizeSize) % buf.length]?

/-- WriteHead::increment: head_position becomes (head_position + 1) % N. -/
def WriteHead.increment (N pos : Nat) : Nat :=
  (pos + 1) % N

/-- WriteHead::push writes the element at head_position, then increments. -/
def WriteHead.push {α : Type} (buf : List α) (pos : Nat) (v : α) : List α × Nat :=
  (buf.set pos v, WriteHead.increment buf.length pos)

/-- WriteHead's Index impl (read): the slot (head_position + i) % N. -/
def WriteHead.index_pos (N pos i : Nat) : Nat :=
  (pos + i) % N

/-- WriteHead's IndexMut impl computes current_position as i % N: the
head_position is NOT added, unlike the Index impl right above it. -/
def WriteHead.index_mut_pos (N pos i : Nat) : Nat :=
  i % N

/-- The store writehead[i] = v performed through the IndexMut impl. -/
def WriteHead.index_set {α : Type} (buf : List α) (pos i : Nat) (v : α) : List α :=
  buf.set (WriteHead.index_mut_pos buf.length pos i) v

/-- Repeated WriteHead::push, returning the final buffer. -/
def pushAll {α : Type} (buf : List α) (pos : Nat) : List α → List α
  | [] => buf
  | v :: rest => pushAll (WriteHead.push buf pos v).1 (WriteHead.push buf pos v).2 rest

/-- One lock-step tick per pushed value: the writer pushes, then the reader
pulls once from the updated shared buffer.  Returns the reader's outputs and
the final buffer and head positions. -/
def lockstepRun {α : Type} (vs : List α) (buf : List α) (wpos rpos : Nat) :
    List (Option α) × List α × Nat × Nat :=
  match vs with
  | [] => ([], buf, wpos, rpos)
  | v :: rest =>
    let w := WriteHead.push buf wpos v
    let r := ReadHead.next w.1 rpos
    let k := lockstepRun rest w.1 w.2 r.2.2
    (r.1 :: k.1, k.2)

/-- Shared state for two read cursors over one buffer. -/
structure TwoReaderState (α : Type) where
  buf : List α
  r1 : Nat
  r2 : Nat

/-- Pull once from the first reader: only its own head advances. -/
def pull1 {α : Type} (s : TwoReaderState α) : Option α × TwoReaderState α :=
  ((ReadHead.next s.buf s.r1).1,
   ⟨(ReadHead.next s.buf s.r1).2.1, (ReadHead.next s.buf s.r1).2.2, s.r2⟩)

/-- The sequence of values the second reader yields over k pulls. -/
def pulls2 {α : Type} (s : TwoReaderState α) : Nat → List (Option α)
  | 0 => []
  | k + 1 =>
    (ReadHead.next s.buf s.r2).1 ::
      pulls2 ⟨(ReadHead.next s.buf s.r2).2.1, s.r1, (ReadHead.next s.buf s.r2).2.2⟩ k

/-! ## Helper lemmas -/

theorem pushAll_cons {α : Type} (buf : List α) (p : Nat) (v : α) (ws : List α) :
    pushAll buf p (v :: ws) = pushAll (buf.set p v) ((p + 1) % buf.length) ws := rfl

theorem pushAll_length {α : Type} (ws : List α) :
    ∀ (buf : List α) (p : Nat), (pushAll buf p ws).length = buf.length := by
  induction ws with
  | nil => intro buf p; rfl
  | cons v rest ih =>
    intro buf p
    simp only [pushAll, WriteHead.push, WriteHead.increment]
    rw [ih]
    exact List.length_set ..

theorem pushAll_getElem?_untouched {α : Type} (N : Nat) (ws : List α) :
    ∀ (buf : List α) (p s : Nat), buf.length = N → p < N →
      (∀ j, j < ws.length → (p + j) % N ≠ s) →
      (pushAll buf p ws)[s]? = buf[s]? := by
  induction ws with
  | nil => intro buf p s _ _ _; rfl
  | cons v rest ih =>
    intro buf p s hbuf hp hmiss
    have hN : 0 < N := Nat.lt_of_le_of_lt (Nat.zero_le p) hp
    have hlen : (buf.set p v).length = N := by rw [List.length_set, hbuf]
    have hstep :
        (pushAll (buf.set p v) ((p + 1) % N) rest)[s]? = (buf.set p v)[s]? := by
      apply ih (buf.set p v) ((p + 1) % N) s hlen (Nat.mod_lt _ hN)
      intro j hj
      rw [Nat.mod_add_mod]
      have e : p + 1 + j = p + (j + 1) := by omega
      rw [e]
      exact hmiss (j + 1) (by simpa using Nat.succ_lt_succ hj)
    have hne : p ≠ s := by
      have h0 := hmiss 0 (by simp)
      rw [Nat.add_zero, Nat.mod_eq_of_lt hp] at h0
      exact h0
    simp only [pushAll, WriteHead.push, WriteHead.increment, hbuf]
    rw [hstep]
    exact List.getElem?_set_ne hne

theorem pushAll_getElem?_last {α : Type} (N : Nat) (ws : List α) :
    ∀ (buf : List α) (p j : Nat), buf.length = N → p < N → j < ws.length →
      (∀ a, j < a → a < ws.length → (p + a) % N ≠ (p + j) % N) →
      (pushAll buf p ws)[(p + j) % N]? = ws[j]? := by
  induction ws with
  | nil => intro buf p j _ _ hj _; exact absurd hj (Nat.not_lt_zero j)
  | cons v rest ih =>
    intro buf p j hbuf hp hj hlast
    have hN : 0 < N := Nat.lt_of_le_of_lt (Nat.zero_le p) hp
    have hlen : (buf.set p v).length = N := by rw [List.length_set, hbuf]
    match j with
    | 0 =>
      have hpp : (p + 0) % N = p := by rw [Nat.add_zero]; exact Nat.mod_eq_of_lt hp
      simp only [pushAll, WriteHead.push, WriteHead.increment, hbuf, hpp]
      have huntouched :
          (pushAll (buf.set p v) ((p + 1) % N) rest)[p]? = (buf.set p v)[p]? := by
        apply pushAll_getElem?_untouched N rest (buf.set p v) ((p + 1) % N) p hlen
          (Nat.mod_lt _ hN)
        intro a ha
        rw [Nat.mod_add_mod]
        have e : p + 1 + a = p + (a + 1) := by omega
        rw [e]
        have h := hlast (a + 1) (by omega) (by simpa using Nat.succ_lt_succ ha)
        rw [hpp] at h
        exact h
      rw [huntouched, List.getElem?_set_self (by rw [hbuf]; exact hp)]
      exact List.getElem?_cons_zero.symm
    | j' + 1 =>
      have hmodeq : ∀ a : Nat, ((p + 1) % N + a) % N = (p + (a + 1)) % N := by
        intro a
        rw [Nat.mod_add_mod]
        congr 1
        omega
      have hih := ih (buf.set p v) ((p + 1) % N) j' hlen (Nat.mod_lt _ hN)
        (by simpa using Nat.lt_of_succ_lt_succ hj)
        (by
          intro a ha halen
          rw [hmodeq a, hmodeq j']
          exact hlast (a + 1) (by omega) (by simpa using Nat.succ_lt_succ halen))
      rw [hmodeq j'] at hih
      simp only [pushAll, WriteHead.push, WriteHead.increment, hbuf]
      rw [hih]
      exact List.getElem?_cons_succ.symm

theorem lockstep_out {α : Type} (N : Nat) (vs : List α) :
    ∀ (buf : List α) (p r t : Nat), buf.length = N → r < N → t < vs.length →
      (lockstepRun vs buf p r).1[t]? =
        some ((pushAll buf p (vs.take (t + 1)))[(r + t) % N]?) := by
  induction vs with
  | nil => intro buf p r t _ _ ht; exact absurd ht (Nat.not_lt_zero t)
  | cons v rest ih =>
    intro buf p r t hbuf hr ht
    have hN : 0 < N := Nat.lt_of_le_of_lt (Nat.zero_le r) hr
    have hlen : (buf.set p v).length = N := by rw [List.length_set, hbuf]
    match t with
    | 0 =>
      simp only [lockstepRun, WriteHead.push, WriteHead.increment, ReadHead.next,
        List.take, pushAll, List.getElem?_cons_zero, hbuf, hlen]
      rw [Nat.add_zero, Nat.mod_eq_of_lt hr]
    | t' + 1 =>
      have hr' : (r + 1) % N < N := Nat.mod_lt _ hN
      have hih := ih (buf.set p v) ((p + 1) % N) ((r + 1) % N) t' hlen hr'
        (by simpa using Nat.lt_of_succ_lt_succ ht)
      have hslot : ((r + 1) % N + t') % N = (r + (t' + 1)) % N := by
        rw [Nat.mod_add_mod]
        congr 1
        omega
      rw [hslot] at hih
      simp only [lockstepRun, WriteHead.push, WriteHead.increment, ReadHead.next,
        hbuf, hlen, List.getElem?_cons_succ, List.take]
      rw [hih, pushAll_cons, hbuf]

theorem pulls2_r1_independent {α : Type} (k : Nat) :
    ∀ (buf : List α) (a b r2 : Nat),
      pulls2 ⟨buf, a, r2⟩ k = pulls2 ⟨buf, b, r2⟩ k := by
  induction k with
  | zero => intro buf a b r2; rfl
  | succ k ih =>
    intro buf a b r2
    simp only [pulls2]
    rw [ih]

/-! ## Claim theorems -/

/-- Claim C1: for capacity N at least 1, delay d below N, and pushed values
v0, v1, ...: pulling a ReadHead created with delay d in lock-step with the
writer (starting at write index 0) yields, at every pull index t at or past
d, exactly the value pushed d steps earlier. -/
theorem tap_delay_correct {α : Type} (vs buf0 : List α) (d t : Nat)
    (hd : d < buf0.length) (hdt : d ≤ t) (ht : t < vs.length) :
    (lockstepRun vs buf0 0 ((buf0.length - d) % buf0.length)).1[t]? =
      some (vs[t - d]?) := by
  have hN : 0 < buf0.length := Nat.lt_of_le_of_lt (Nat.zero_le d) hd
  have hr : (buf0.length - d) % buf0.length < buf0.length := Nat.mod_lt _ hN
  rw [lockstep_out buf0.length vs buf0 0 ((buf0.length - d) % buf0.length) t rfl hr ht]
  have hslot : ((buf0.length - d) % buf0.length + t) % buf0.length =
      (0 + (t - d)) % buf0.length := by
    rw [Nat.mod_add_mod, Nat.zero_add]
    have e : buf0.length - d + t = (t - d) + buf0.length := by omega
    rw [e, Nat.add_mod_right]
  rw [hslot]
  have hlen_take : (vs.take (t + 1)).length = t + 1 := by
    rw [List.length_take]
    omega
  have hmain := pushAll_getElem?_last buf0.length (vs.take (t + 1)) buf0 0 (t - d)
    rfl hN (by omega)
    (by
      intro a ha halen hmod
      rw [hlen_take] at halen
      rw [Nat.zero_add, Nat.zero_add] at hmod
      have hk1 : 0 < a - (t - d) := by omega
      have hk2 : a - (t - d) < buf0.length := by omega
      have e : a = (t - d) + (a - (t - d)) := by omega
      rw [e] at hmod
      have hme : Nat.ModEq buf0.length ((t - d) + (a - (t - d))) ((t - d) + 0) := by
        rw [Nat.add_zero]
        exact hmod
      have hzero := Nat.ModEq.add_left_cancel' (t - d) hme
      have : (a - (t - d)) % buf0.length = 0 := by
        rw [hzero]
        exact Nat.zero_mod _
      rw [Nat.mod_eq_of_lt hk2] at this
      omega)
  rw [hmain]
  congr 1
  exact List.getElem?_take_of_lt (by omega)

/-- Concrete instance of the claim C1 theorem: N = 3, values 10, 20, 30 over
an all-zero initial buffer, delay 1, pull index 1 yields the first value. -/
theorem tap_delay_correct_witness :
    (lockstepRun [(10 : Int), 20, 30] [0, 0, 0] 0 2).1[1]? = some (some 10) :=
  tap_delay_correct [10, 20, 30] [0, 0, 0] 1 1 (by decide) (by decide) (by decide)

/-- Claim C2 counterexample: while a first WriteHead over this concrete
buffer is still live, a second as_writehead call runs the same unconditional
constructor and yields a WriteHead at index 0 — it does not fail: the return
type has no failure value, and Multitap stores no writer-issued flag. -/
theorem second_writehead_acquire_succeeds :
    (Multitap.as_writehead (⟨[0, 0, 0]⟩ : Multitap Int)).head_position = 0 :=
  rfl

/-- Claim C2 amended: acquiring a write cursor always succeeds at index 0,
whether or not another WriteHead is outstanding; the source has no
writer-issued flag, no failure path, and dropping a WriteHead changes
nothing. -/
theorem as_writehead_unconditional {α : Type} (m : Multitap α) :
    Multitap.as_writehead m = ⟨0⟩ :=
  rfl

/-- Claim C3 counterexample: at N = 3 and delay 4 the claimed position is
(3 - 4 % 3) % 3 = 2, but the source computes (N - delay) % N on usize: the
subtraction underflows, so a debug build panics (none) and a release build
wraps modulo 2 ^ 64 and lands on 0, not 2. -/
theorem readhead_delay_above_capacity_not_aliased :
    Multitap.as_readhead_pos 3 4 = none ∧
    Multitap.as_readhead_pos_wrap 3 4 = 0 ∧ (3 - 4 % 3) % 3 = 2 := by
  refine ⟨rfl, by decide, rfl⟩

/-- Claim C3 amended: acquiring a read cursor succeeds only for delay at
most N, where it is positioned at (N - (delay % N)) % N; for delay above N
the usize subtraction N - delay underflows instead of aliasing modulo N. -/
theorem readhead_acquire_checked (N delay : Nat) (hN : 0 < N) :
    (delay ≤ N → Multitap.as_readhead_pos N delay = some ((N - delay % N) % N)) ∧
    (N < delay → Multitap.as_readhead_pos N delay = none) := by
  constructor
  · intro h
    unfold Multitap.as_readhead_pos
    rw [if_pos h]
    congr 1
    rcases Nat.lt_or_ge delay N with hlt | hge
    · rw [Nat.mod_eq_of_lt hlt]
    · have he : delay = N := Nat.le_antisymm h hge
      subst he
      simp
  · intro h
    unfold Multitap.as_readhead_pos
    rw [if_neg (Nat.not_le.mpr h)]

/-- Concrete instance of the claim C3 amended theorem at N = 3, delay = 3. -/
theorem readhead_acquire_checked_witness :
    Multitap.as_readhead_pos 3 3 = some ((3 - 3 % 3) % 3) :=
  (readhead_acquire_checked 3 3 (by decide)).1 (by decide)

/-- Claim C4: at N = 2 with the write head at index 1 and i = 0, the Index
impl reads slot (1 + 0) % 2 = 1 but the IndexMut impl computes i % N = 0 and
the store lands in slot 0, overwriting the wrong element: the code drops the
head_position that the claim (and the Index impl beside it) requires. -/
theorem writehead_index_mut_ignores_head :
    WriteHead.index_pos 2 1 0 = 1 ∧ WriteHead.index_mut_pos 2 1 0 = 0 ∧
    WriteHead.index_set ([10, 20] : List Int) 1 0 99 = [99, 20] := by
  decide

/-- Claim C5 counterexample: requesting capacity 0 succeeds and yields a
Multitap over an empty array (no InvalidCapacity check exists), and
from_slice with a wrong-length slice hits expect, i.e. a panic (modelled as
none), not a SizeMismatch error value returned to the caller. -/
theorem construction_no_error_values :
    Multitap.new Int 0 = ⟨[]⟩ ∧ Multitap.from_slice 3 ([1, 2] : List Int) = none :=
  ⟨rfl, rfl⟩

/-- Claim C5 amended: from_slice panics (none) exactly when the source
length differs from N — the failure is deterministic but a crash, not a
returned error — and new always succeeds, building a buffer of length N for
every N including 0. -/
theorem construction_amended {α : Type} [NumTrait α] (N : Nat) (data : List α) :
    (Multitap.from_slice N data = none ↔ data.length ≠ N) ∧
    (Multitap.new α N).data.length = N := by
  constructor
  · unfold Multitap.from_slice
    split
    · rename_i h
      simp [h]
    · rename_i h
      simp [h]
  · simp [Multitap.new]

/-- Claim C6 counterexample: the usize sum head_position + i overflows at
N = 3, head_position 2, i = 2 ^ 64 - 1: a debug build panics (none), and a
release build wraps to (2 + (2 ^ 64 - 1)) mod 2 ^ 64 = 1 and reads slot
1 % 3 = 1 (value 20), while at(i mod 3) = at(0) reads slot 2 (value 30) —
so at(i) = at(i mod N) fails on the program at this input. -/
theorem readhead_index_overflow_breaks_aliasing :
    ReadHead.index_get_checked ([10, 20, 30] : List Int) 2 (usizeSize - 1) = none ∧
    ReadHead.index_get_wrap ([10, 20, 30] : List Int) 2 (usizeSize - 1) = some 20 ∧
    ReadHead.index_get_wrap ([10, 20, 30] : List Int) 2 ((usizeSize - 1) % 3) =
      some 30 := by
  decide

/-- Claim C6 amended: as long as head_position + i does not overflow usize
(head_position + i below 2 ^ 64), the ReadHead Index impl is a pure peek at
slot (head_position + i) % N, index i and index i % N read the same slot,
and the debug and release semantics agree; beyond that bound the addition
overflows instead of aliasing modulo N. -/
theorem readhead_index_peek_amended {α : Type} (buf : List α) (pos i : Nat)
    (h : pos + i < usizeSize) :
    ReadHead.index_get_wrap buf pos i = buf[(pos + i) % buf.length]? ∧
    ReadHead.index_get_wrap buf pos i = ReadHead.index_get_wrap buf pos (i % buf.length) ∧
    ReadHead.index_get_checked buf pos i = some (ReadHead.index_get_wrap buf pos i) := by
  have h1 : (pos + i) % usizeSize = pos + i := Nat.mod_eq_of_lt h
  have h2 : pos + i % buf.length < usizeSize :=
    Nat.lt_of_le_of_lt (Nat.add_le_add_left (Nat.mod_le i buf.length) pos) h
  refine ⟨?_, ?_, ?_⟩
  · unfold ReadHead.index_get_wrap
    rw [h1]
  · unfold ReadHead.index_get_wrap
    rw [h1, Nat.mod_eq_of_lt h2, Nat.add_mod_mod]
  · unfold ReadHead.index_get_checked ReadHead.index_get_wrap
    rw [if_pos h, h1]

/-- Concrete instance of the claim C6 amended theorem: N = 3,
head_position 2, i = 4 (within the usize range). -/
theorem readhead_index_peek_amended_witness :
    ReadHead.index_get_wrap ([10, 20, 30] : List Int) 2 4 = some 10 ∧
    ReadHead.index_get_wrap ([10, 20, 30] : List Int) 2 4 =
      ReadHead.index_get_wrap ([10, 20, 30] : List Int) 2 (4 % 3) ∧
    ReadHead.index_get_checked ([10, 20, 30] : List Int) 2 4 =
      some (ReadHead.index_get_wrap ([10, 20, 30] : List Int) 2 4) :=
  readhead_index_peek_amended [10, 20, 30] 2 4 (by decide)

/-- Claim C7: seek(p) followed by next() returns the same value and leaves
the cursor at the same index as seek(p % N) followed by next(). -/
theorem seek_then_next_cyclical {α : Type} (buf : List α) (p : Nat) :
    ReadHead.next buf (ReadHead.seek buf.length p) =
      ReadHead.next buf (ReadHead.seek buf.length (p % buf.length)) := by
  unfold ReadHead.seek
  rw [Nat.mod_mod]

/-- Claim C8: pulling one reader leaves the buffer contents and the other
reader's index unchanged, so the other reader's output sequence over any
number of pulls is unaffected. -/
theorem reader_pull_frame {α : Type} (s : TwoReaderState α) (k : Nat) :
    (pull1 s).2.buf = s.buf ∧ (pull1 s).2.r2 = s.r2 ∧
    pulls2 ((pull1 s).2) k = pulls2 s k := by
  refine ⟨rfl, rfl, ?_⟩
  show pulls2 ⟨s.buf, (s.r1 + 1) % s.buf.length, s.r2⟩ k = pulls2 s k
  rw [pulls2_r1_independent k s.buf ((s.r1 + 1) % s.buf.length) s.r1 s.r2]

/-- Claim C9: with capacity N at least 1, every head position produced by
the cursor operations lies in [0, N): the write head at creation, a read
head at creation, and the positions after increment, seek, push, next, and
the slots addressed by indexed access. -/
theorem head_positions_in_range {α : Type} (N p d i : Nat) (buf : List α) (v : α)
    (hN : 0 < N) (hbuf : buf.length = N) (hd : d ≤ N) :
    (Multitap.as_writehead (⟨buf⟩ : Multitap α)).head_position < N ∧
    (∀ r, Multitap.as_readhead_pos N d = some r → r < N) ∧
    WriteHead.increment N p < N ∧
    ReadHead.seek N p < N ∧
    (WriteHead.push buf p v).2 < N ∧
    (ReadHead.next buf p).2.2 < N ∧
    WriteHead.index_pos N p i < N ∧
    WriteHead.index_mut_pos N p i < N := by
  refine ⟨hN, ?_, Nat.mod_lt _ hN, Nat.mod_lt _ hN, ?_, ?_, Nat.mod_lt _ hN,
    Nat.mod_lt _ hN⟩
  · intro r hr
    unfold Multitap.as_readhead_pos at hr
    rw [if_pos hd] at hr
    injection hr with h
    rw [← h]
    exact Nat.mod_lt _ hN
  · simp only [WriteHead.push, WriteHead.increment, hbuf]
    exact Nat.mod_lt _ hN
  · simp only [ReadHead.next, hbuf]
    exact Nat.mod_lt _ hN

/-- Concrete instance of the claim C9 theorem at N = 3 with out-of-phase
inputs p = 7, d = 2, i = 5. -/
theorem head_positions_in_range_witness :
    (Multitap.as_writehead (⟨[1, 2, 3]⟩ : Multitap Int)).head_position < 3 ∧
    (∀ r, Multitap.as_readhead_pos 3 2 = some r → r < 3) ∧
    WriteHead.increment 3 7 < 3 ∧
    ReadHead.seek 3 7 < 3 ∧
    (WriteHead.push [(1 : Int), 2, 3] 7 0).2 < 3 ∧
    (ReadHead.next [(1 : Int), 2, 3] 7).2.2 < 3 ∧
    WriteHead.index_pos 3 7 5 < 3 ∧
    WriteHead.index_mut_pos 3 7 5 < 3 :=
  head_positions_in_range 3 7 2 5 [1, 2, 3] 0 (by decide) (by decide) (by decide)

/-- Claim C10: for every delay d up to and including N, read-cursor creation
succeeds (the subtraction does not underflow) at position (N - d) % N, and
delay N lands on the same starting position as delay 0. -/
theorem readhead_delay_up_to_capacity (N d : Nat) (hN : 0 < N) (hd : d ≤ N) :
    Multitap.as_readhead_pos N d = some ((N - d) % N) ∧
    Multitap.as_readhead_pos N N = Multitap.as_readhead_pos N 0 := by
  constructor
  · unfold Multitap.as_readhead_pos
    rw [if_pos hd]
  · unfold Multitap.as_readhead_pos
    rw [if_pos (Nat.le_refl N), if_pos (Nat.zero_le N)]
    simp

/-- Concrete instance of the claim C10 theorem at N = 3, d = 3. -/
theorem readhead_delay_up_to_capacity_witness :
    Multitap.as_readhead_pos 3 3 = some ((3 - 3) % 3) ∧
    Multitap.as_readhead_pos 3 3 = Multitap.as_readhead_pos 3 0 :=
  readhead_delay_up_to_capacity 3 3 (by decide) (by decide)
